import Mathlib

/-!
Verification development for the list-handling core of the
markdown-clever-lists editor extension (the current revision of
src/extension.ts: the ParsedLine class, getMarkerLevels,
determineFullMarker, determineMarkerNumber, outdentListItem,
indentListItem, onEnterKey, onOutdent, onIndent).

Modelling conventions:
* A document is a `List String`, one entry per line, without line
  separators (as in the host editor's line model).
* JavaScript strings are modelled as Lean strings viewed as lists of
  characters.
* `NotAListItemError` (the parse failure of the list-item regex) is
  modelled by `Option`: `parseLine` returns `none` where the ParsedLine
  constructor throws `NotAListItemError`.
* Any other exception escaping an operation (the host's "Illegal value
  for line" from `document.lineAt` on an out-of-range line number, the
  "Invalid full marker" / "Marker is not a number" contract errors, and
  an out-of-bounds array access) aborts the whole operation; these are
  modelled by `Except Unit`, with `Except.error ()` meaning the
  operation's edit transaction is abandoned.
* Host commands triggered instead of editing (the "type" command used
  to insert a plain newline, and the default indent/outdent commands)
  are modelled as distinguished result constructors.
-/

/-- Character class of the JavaScript regex escape `\s` (whitespace):
space, tab, LF, VT, FF, CR, NBSP, plus the Unicode space separators,
line separators, narrow no-break space and BOM matched by `\s`. -/
def isJsSpace (c : Char) : Bool :=
  c == ' ' || c == '\t' || c == '\n' || c == '\x0B' || c == '\x0C' || c == '\r' ||
  c == '\u00A0' || c == '\u1680' ||
  (decide (0x2000 ≤ c.toNat) && decide (c.toNat ≤ 0x200A)) ||
  c == '\u2028' || c == '\u2029' || c == '\u202F' || c == '\u205F' ||
  c == '\u3000' || c == '\uFEFF'

/-- Line terminators, which the JavaScript regex `.` does not match. -/
def isLineTerm (c : Char) : Bool :=
  c == '\n' || c == '\r' || c == '\u2028' || c == '\u2029'

/-- JavaScript `s.substring(n)`: drop the first `n` characters
(yielding the empty string when `n` exceeds the length). -/
def sDrop (s : String) (n : Nat) : String :=
  String.mk (s.data.drop n)

/-- JavaScript `s.replace(/\t/g, " ".repeat(tabSize))`: every tab in
`s` replaced by `tabSize` spaces. -/
def tabsToSpaces (tabSize : Nat) (s : String) : String :=
  String.mk (List.flatten (s.data.map
    (fun c => if c == '\t' then List.replicate tabSize ' ' else [c])))

/-- JavaScript `parseInt` on a non-empty string of decimal digits.
(The double-precision rounding of `parseInt` on astronomically long
numerals is not modelled; list numbering stays far below 2^53.) -/
def digitsToNat (ds : List Char) : Nat :=
  ds.foldl (fun n c => n * 10 + (c.toNat - 48)) 0

/-- Whether a character list starts with a literal space, used for the
lookahead that decides if the optional checkbox group of the list-item
regex can be kept (the regex engine backtracks the greedy optional
group `(?: \[[xX ]\])?` whenever keeping it would make the mandatory
`( +)` group fail; after the bullet character a checkbox is therefore
kept exactly when at least one further space follows it). -/
def firstIsSpace : List Char → Bool
  | ' ' :: _ => true
  | _ => false

/-- The marker alternation `([-*+](?: \[[xX ]\])?|[0-9]+[.)])` of the
list-item regex `/^(\s*)([-*+](?: \[[xX ]\])?|[0-9]+[.)])( +)(.*)/`,
applied at the position right after the leading whitespace, including
the backtracking of the optional checkbox group against the following
`( +)` group.  Returns the matched marker token and the rest. -/
def matchMarker : List Char → Option (List Char × List Char)
  | [] => none
  | c :: rest =>
    if c == '-' || c == '*' || c == '+' then
      match rest with
      | ' ' :: '[' :: x :: ']' :: r2 =>
        if (x == 'x' || x == 'X' || x == ' ') && firstIsSpace r2 then
          some ([c, ' ', '[', x, ']'], r2)
        else
          some ([c], rest)
      | _ => some ([c], rest)
    else if c.isDigit then
      match (c :: rest).dropWhile Char.isDigit with
      | d :: r2 =>
        if d == '.' || d == ')' then
          some ((c :: rest).takeWhile Char.isDigit ++ [d], r2)
        else none
      | [] => none
    else none

/-- Full match of the list-item regex
`/^(\s*)([-*+](?: \[[xX ]\])?|[0-9]+[.)])( +)(.*)/` against a line
text, returning the four capture groups (leading whitespace, marker
token, trailing spaces, remainder).  `( +)` is one or more literal
spaces, and `(.*)` runs greedily up to the first line terminator; the
regex is unanchored at the end, so nothing forces the match to consume
the whole line. -/
def matchListLine (text : String) : Option (String × String × String × String) :=
  let cs := text.data
  match matchMarker (cs.dropWhile isJsSpace) with
  | none => none
  | some (mk, rest2) =>
    let sp := rest2.takeWhile (fun c => c == ' ')
    if sp.isEmpty then none
    else
      some (String.mk (cs.takeWhile isJsSpace), String.mk mk, String.mk sp,
        String.mk ((rest2.dropWhile (fun c => c == ' ')).takeWhile
          (fun c => !(isLineTerm c))))

/-- The structured description of one parsed list-item line: the
fields of the ParsedLine class.  `lineNumber` records
`line.lineNumber` of the underlying text line. -/
structure ParsedLine where
  lineNumber : Nat
  initialSpacing : String
  initialSpacingAsSpaces : String
  level : Nat
  marker : String
  markerInitialSpaces : String
  markerIsNumber : Bool
  markerNumber : Option Nat
  markerDelimiter : Option String
  markerTrailingSpaces : String
  remainder : String
deriving DecidableEq

/-- The marker-number regex `/^([0-9]+)([.)])/` of
`ParsedLine.parseMarker`: a numeral prefix followed by its delimiter,
or no match. -/
def parseMarkerNumber (mk : String) : Option (Nat × String) :=
  match mk.data.takeWhile Char.isDigit, mk.data.dropWhile Char.isDigit with
  | [], _ => none
  | ds, d :: _ =>
    if d == '.' || d == ')' then some (digitsToNat ds, String.mk [d]) else none
  | _, [] => none

/-- The ParsedLine constructor: parse a line text with the list-item
regex and populate the fields.  `level` is the floor of the raw
initial-spacing length divided by the tab size (the constructor reads
`this.initialSpacing.length`, not the tab-expanded form), and
`markerInitialSpaces` is `initialSpacingAsSpaces.substring(level *
tabSize)`.  A failed regex match (`NotAListItemError`) is `none`. -/
def parseLine (tabSize : Nat) (lineNumber : Nat) (text : String) :
    Option ParsedLine :=
  match matchListLine text with
  | none => none
  | some (ws, mk, sp, rem) =>
    let asSpaces := tabsToSpaces tabSize ws
    let level := ws.length / tabSize
    some
      { lineNumber := lineNumber
        initialSpacing := ws
        initialSpacingAsSpaces := asSpaces
        level := level
        marker := mk
        markerInitialSpaces := sDrop asSpaces (level * tabSize)
        markerIsNumber := (parseMarkerNumber mk).isSome
        markerNumber := (parseMarkerNumber mk).map Prod.fst
        markerDelimiter := (parseMarkerNumber mk).map Prod.snd
        markerTrailingSpaces := sp
        remainder := rem }

/-- ParsedLine.getFullMarker: the leftover sub-tab-width spacing plus
the marker token. -/
def ParsedLine.getFullMarker (pl : ParsedLine) : String :=
  pl.markerInitialSpaces ++ pl.marker

/-- ParsedLine.getHead: initial spacing, marker and trailing spaces —
everything on the line before the remainder. -/
def ParsedLine.getHead (pl : ParsedLine) : String :=
  pl.initialSpacing ++ pl.marker ++ pl.markerTrailingSpaces

/-- Parse the document line at index `i` (recording `i` as the parsed
line's line number); `none` when the index is out of range or the line
is not a list item. -/
def parseAt (tabSize : Nat) (doc : List String) (i : Nat) : Option ParsedLine :=
  (doc.get? i).bind (parseLine tabSize i)

deriving instance DecidableEq for Except

/-- The blankListItemBehaviour configuration value: the enum
"Outdent" / "Remove List Item" of the extension's settings. -/
inductive BlankBehaviour
  | outdent
  | removeListItem
deriving DecidableEq

/-- The editor/configuration state the operations read from the host:
`options.tabSize`, `options.insertSpaces`, and the extension
configuration "defaultMarkers" and "blankListItemBehaviour". -/
structure EditorOpts where
  tabSize : Nat
  insertSpaces : Bool
  defaultMarkers : List String
  blankBehaviour : BlankBehaviour
deriving DecidableEq

/-- One host selection: its start and end positions (start ≤ end in
the host's model) and its active (cursor) position. -/
structure Selection where
  startLine : Nat
  startChar : Nat
  endLine : Nat
  endChar : Nat
  activeLine : Nat
  activeChar : Nat
deriving DecidableEq

/-- One edit submitted to the host's edit transaction.  `replace`
replaces the within-line range from `startCol` to `endCol` of line
`line`; `insert` inserts `text` (which may contain a newline) at a
position; `delete` removes the range between two positions. -/
inductive Edit
  | replace (line startCol endCol : Nat) (newText : String)
  | insert (line col : Nat) (text : String)
  | delete (startLine startCol endLine endCol : Nat)
deriving DecidableEq

/-- document.lineAt: the text of line `i`, or the host's "Illegal
value for line" error when `i` is out of range. -/
def lineAt (doc : List String) (i : Nat) : Except Unit String :=
  match doc.get? i with
  | some t => Except.ok t
  | none => Except.error ()

/-- createIndentation: `tabSize * level` spaces when the editor
inserts spaces, otherwise `level` tabs. -/
def createIndentation (opts : EditorOpts) (level : Nat) : String :=
  if opts.insertSpaces then String.mk (List.replicate (opts.tabSize * level) ' ')
  else String.mk (List.replicate level '\t')

/-- EditedParsedLine.setMarker: store the marker and re-run
parseMarker (which updates the number fields only on a numeric
marker, leaving the previous number and delimiter in place
otherwise). -/
def setMarker (pl : ParsedLine) (mk : String) : ParsedLine :=
  match parseMarkerNumber mk with
  | some (n, d) =>
    { pl with marker := mk, markerNumber := some n, markerDelimiter := some d,
              markerIsNumber := true }
  | none => { pl with marker := mk, markerIsNumber := false }

/-- EditedParsedLine.setMarkerNumber: replace the numeral of a
numeric marker; throws ("Marker is not a number") otherwise. -/
def setMarkerNumber (pl : ParsedLine) (n : Nat) : Except Unit ParsedLine :=
  if pl.markerIsNumber then
    Except.ok { pl with markerNumber := some n,
                        marker := toString n ++ pl.markerDelimiter.getD "" }
  else Except.error ()

/-- EditedParsedLine.setIndentationLevel: store the level and rebuild
the initial spacing as createIndentation of the level followed by the
marker initial spaces. -/
def setIndentationLevel (opts : EditorOpts) (pl : ParsedLine) (level : Nat) :
    ParsedLine :=
  let ins := createIndentation opts level ++ pl.markerInitialSpaces
  { pl with level := level, initialSpacing := ins,
            initialSpacingAsSpaces := tabsToSpaces opts.tabSize ins }

/-- The prefix regex `/^(\s*)([-*+](?: \[[xX ]\])?|[0-9]+[.)])/` used
by EditedParsedLine.setFullMarker.  Unlike the line regex it demands
nothing after the marker, so the optional checkbox group is kept
whenever its shape is present. -/
def matchMarkerOnly : List Char → Option (List Char)
  | [] => none
  | c :: rest =>
    if c == '-' || c == '*' || c == '+' then
      match rest with
      | ' ' :: '[' :: x :: ']' :: _ =>
        if x == 'x' || x == 'X' || x == ' ' then some [c, ' ', '[', x, ']']
        else some [c]
      | _ => some [c]
    else if c.isDigit then
      match (c :: rest).dropWhile Char.isDigit with
      | d :: _ =>
        if d == '.' || d == ')' then
          some ((c :: rest).takeWhile Char.isDigit ++ [d])
        else none
      | [] => none
    else none

/-- Match of the full-marker prefix regex: leading whitespace group
and marker group. -/
def matchFullMarker (fullMarker : String) : Option (String × String) :=
  let cs := fullMarker.data
  match matchMarkerOnly (cs.dropWhile isJsSpace) with
  | none => none
  | some mk => some (String.mk (cs.takeWhile isJsSpace), String.mk mk)

/-- EditedParsedLine.setFullMarker: split a full marker into spacing
prefix and marker token, rebuild the initial spacing from
createIndentation of the current level plus that prefix, and set the
marker; throws ("Invalid full marker") when the prefix regex fails. -/
def setFullMarker (opts : EditorOpts) (pl : ParsedLine) (fullMarker : String) :
    Except Unit ParsedLine :=
  match matchFullMarker fullMarker with
  | none => Except.error ()
  | some (mis, mk) =>
    let ins := createIndentation opts pl.level ++ mis
    Except.ok (setMarker
      { pl with markerInitialSpaces := mis, initialSpacing := ins,
                initialSpacingAsSpaces := tabsToSpaces opts.tabSize ins } mk)

/-- Read index `i` of a JavaScript sparse array of strings:
`undefined` (`none`) beyond the length or at a hole. -/
def sparseGet : List (Option String) → Nat → Option String
  | [], _ => none
  | x :: _, 0 => x
  | _ :: rest, i + 1 => sparseGet rest i

/-- Write index `i` of a JavaScript sparse array of strings,
extending the array with holes as needed. -/
def sparseSet : List (Option String) → Nat → String → List (Option String)
  | [], 0, v => [some v]
  | [], i + 1, v => none :: sparseSet [] i v
  | _ :: rest, 0, v => some v :: rest
  | x :: rest, i + 1, v => x :: sparseSet rest i v

/-- Number of defined (non-hole) entries of a sparse array; this is
what the levelsRecorded counter of getMarkerLevels tracks. -/
def countSome : List (Option String) → Nat
  | [] => 0
  | some _ :: rest => countSome rest + 1
  | none :: rest => countSome rest

/-- The line-visit order of getMarkerLevels: for loop index `i`, line
`activeLine - i` while `i ≤ activeLine`, then line `i`; i.e. the
active line, then upward to line 0, then downward from the line after
the active line. -/
def visitOrder (lineCount activeLine : Nat) : List Nat :=
  (List.range lineCount).map
    (fun i => if i ≤ activeLine then activeLine - i else i)

/-- The scanning loop of getMarkerLevels over a list of line numbers,
carrying the markerLevels sparse array and the levelsRecorded
counter.  A line that is not a list item is skipped; a parsed line is
skipped when its level is already recorded or exceeds maxLevel;
otherwise its full marker is recorded at its level, and the scan
stops as soon as levelsRecorded exceeds maxLevel.  (Out-of-range
visits, impossible when the active line is inside the document, are
skipped.) -/
def gmlLoop (tabSize : Nat) (doc : List String) (maxLevel : Int) :
    List Nat → List (Option String) → Nat → List (Option String)
  | [], acc, _ => acc
  | i :: rest, acc, rec =>
    match parseAt tabSize doc i with
    | none => gmlLoop tabSize doc maxLevel rest acc rec
    | some pl =>
      if (sparseGet acc pl.level).isSome then
        gmlLoop tabSize doc maxLevel rest acc rec
      else if (pl.level : Int) > maxLevel then
        gmlLoop tabSize doc maxLevel rest acc rec
      else
        let acc2 := sparseSet acc pl.level pl.getFullMarker
        if ((rec + 1 : Nat) : Int) > maxLevel then acc2
        else gmlLoop tabSize doc maxLevel rest acc2 (rec + 1)

/-- getMarkerLevels: build the per-level marker table by scanning the
document in visitOrder from the primary selection's active line.
`maxLevel` is an integer because the callers pass `maxLevel - 1`,
which is -1 when no selected line is indented. -/
def getMarkerLevels (tabSize : Nat) (doc : List String) (activeLine : Nat)
    (maxLevel : Int) : List (Option String) :=
  gmlLoop tabSize doc maxLevel (visitOrder doc.length activeLine) [] 0

/-- determineFullMarker: the recorded marker for a level, or the
configured default markers cycled by `level % length`, or "-" when
the configured list is empty. -/
def determineFullMarker (defaultMarkers : List String)
    (markerLevels : List (Option String)) (level : Nat) : String :=
  match sparseGet markerLevels level with
  | none =>
    if defaultMarkers.length = 0 then "-"
    else defaultMarkers.getD (level % defaultMarkers.length) "-"
  | some m => m

/-- The upward scan of determineMarkerNumber.  The argument is the
loop variable currentLineNumber at the top of the while loop; the
loop body first decrements it and then reads that line, so at 0 the
next read is line -1, on which document.lineAt throws an error that
the catch clause re-throws (modelled as `Except.error ()`); the same
happens for a read beyond the end of the document.  A line that is
not a list item is skipped; a numbered line at exactly the target
level stops the scan with its number + 1; a line at a shallower
level stops it with 1; any other parsed line is skipped. -/
def dmnLoop (tabSize : Nat) (doc : List String) (level : Nat) :
    Nat → Except Unit Nat
  | 0 => Except.error ()
  | cur + 1 =>
    match doc.get? cur with
    | none => Except.error ()
    | some text =>
      match parseLine tabSize cur text with
      | none => dmnLoop tabSize doc level cur
      | some pl =>
        if pl.markerIsNumber && pl.level == level then
          Except.ok (pl.markerNumber.getD 0 + 1)
        else if pl.level < level then
          Except.ok 1
        else dmnLoop tabSize doc level cur

/-- determineMarkerNumber: scan upward from the line above
`lineNumber` for the most recent numbered list item at
`indentationLevel` and return its number + 1 (1 when a shallower
list item is found first). -/
def determineMarkerNumber (tabSize : Nat) (doc : List String)
    (lineNumber level : Nat) : Except Unit Nat :=
  dmnLoop tabSize doc level lineNumber

/-- EditedParsedLine.setIndentationLevelAndDetermineMarker: determine
the full marker for the target level from the marker table, set the
level, set the full marker, and, when the resulting marker is
numeric, renumber it via determineMarkerNumber at the line's own
line number. -/
def setIndentationLevelAndDetermineMarker (opts : EditorOpts)
    (doc : List String) (markerLevels : List (Option String))
    (pl : ParsedLine) (level : Nat) : Except Unit ParsedLine :=
  let newFullMarker := determineFullMarker opts.defaultMarkers markerLevels level
  let pl1 := setIndentationLevel opts pl level
  match setFullMarker opts pl1 newFullMarker with
  | Except.error e => Except.error e
  | Except.ok pl2 =>
    if pl2.markerIsNumber then
      match determineMarkerNumber opts.tabSize doc pl2.lineNumber pl2.level with
      | Except.error e => Except.error e
      | Except.ok n => setMarkerNumber pl2 n
    else Except.ok pl2

/-- outdentListItem: nothing at level 0; otherwise derive the line at
one level shallower and replace the line's head (the range from the
line start to the original head length) with the new head. -/
def outdentListItem (opts : EditorOpts) (doc : List String)
    (markerLevels : List (Option String)) (pl : ParsedLine) :
    Except Unit (List Edit) :=
  if pl.level = 0 then Except.ok []
  else
    match setIndentationLevelAndDetermineMarker opts doc markerLevels pl
        (pl.level - 1) with
    | Except.error e => Except.error e
    | Except.ok edited =>
      Except.ok [Edit.replace pl.lineNumber 0 pl.getHead.length edited.getHead]

/-- indentListItem: derive the line at one level deeper and replace
the line's head with the new head. -/
def indentListItem (opts : EditorOpts) (doc : List String)
    (markerLevels : List (Option String)) (pl : ParsedLine) :
    Except Unit (List Edit) :=
  match setIndentationLevelAndDetermineMarker opts doc markerLevels pl
      (pl.level + 1) with
  | Except.error e => Except.error e
  | Except.ok edited =>
    Except.ok [Edit.replace pl.lineNumber 0 pl.getHead.length edited.getHead]

/-- Result of the enter-key operation: either the host "type" command
inserting a plain newline at every cursor (the degraded path), or a
list of edits submitted to the transaction. -/
inductive EnterResult
  | typeNewline
  | edits (es : List Edit)
deriving DecidableEq

/-- Result of the indent/outdent operations: either the host's
default indent/outdent command invoked exactly once (and no edit of
the extension's own), or a list of edits. -/
inductive OpResult
  | defaultCommand
  | edits (es : List Edit)
deriving DecidableEq

/-- textEditor.selection: the primary (first) selection.  The host
guarantees at least one selection. -/
def primaryActiveLine (sels : List Selection) : Nat :=
  match sels with
  | [] => 0
  | sel :: _ => sel.activeLine

/-- The first loop of onEnterKey: check that every cursor sits on a
list-item line with only whitespace after the cursor, tracking the
maximum level of the parsed lines.  The first failing cursor stops
the loop (`none`); an out-of-range cursor line makes document.lineAt
throw outside the try block (`Except.error`). -/
def enterGate (tabSize : Nat) (doc : List String) :
    List Selection → Nat → Except Unit (Option Nat)
  | [], maxLevel => Except.ok (some maxLevel)
  | sel :: rest, maxLevel =>
    match lineAt doc sel.activeLine with
    | Except.error e => Except.error e
    | Except.ok text =>
      match parseLine tabSize sel.activeLine text with
      | none => Except.ok none
      | some pl =>
        if (sDrop text sel.activeChar).data.all isJsSpace then
          enterGate tabSize doc rest
            (if pl.level > maxLevel then pl.level else maxLevel)
        else Except.ok none

/-- Accumulate the edits produced for each selection, in selection
order, stopping at the first error. -/
def collectEdits (f : Selection → Except Unit (List Edit)) :
    List Selection → Except Unit (List Edit)
  | [] => Except.ok []
  | sel :: rest =>
    match f sel with
    | Except.error e => Except.error e
    | Except.ok es =>
      match collectEdits f rest with
      | Except.error e => Except.error e
      | Except.ok rest2 => Except.ok (es ++ rest2)

/-- The per-cursor body of onEnterKey's second loop.  An unparseable
line (unreachable after the gate) just inserts a newline.  A blank
item (empty remainder) is deleted over the line's own range under
"Remove List Item" and outdented otherwise.  A non-blank item inserts
a newline followed by the head of a copy of the line whose numeral,
for numbered markers, is renumbered by determineMarkerNumber from the
line after the cursor's line. -/
def enterCursorEdits (opts : EditorOpts) (doc : List String)
    (markerLevels : List (Option String)) (sel : Selection) :
    Except Unit (List Edit) :=
  match lineAt doc sel.activeLine with
  | Except.error e => Except.error e
  | Except.ok text =>
    match parseLine opts.tabSize sel.activeLine text with
    | none => Except.ok [Edit.insert sel.activeLine sel.activeChar "\n"]
    | some pl =>
      if pl.remainder = "" then
        if opts.blankBehaviour = BlankBehaviour.removeListItem then
          Except.ok [Edit.delete sel.activeLine 0 sel.activeLine text.length]
        else outdentListItem opts doc markerLevels pl
      else
        match
          (if pl.markerIsNumber then
            match determineMarkerNumber opts.tabSize doc (sel.activeLine + 1)
                pl.level with
            | Except.error e => Except.error e
            | Except.ok n => setMarkerNumber pl n
          else Except.ok pl) with
        | Except.error e => Except.error e
        | Except.ok newPl =>
          Except.ok [Edit.insert sel.activeLine sel.activeChar
            ("\n" ++ newPl.getHead)]

/-- onEnterKey: if any cursor fails the gate, fall back to the host
"type" command (a plain newline at every cursor); otherwise build the
marker table up to the maximum cursor level minus one and emit the
per-cursor edits. -/
def onEnterKey (opts : EditorOpts) (doc : List String)
    (sels : List Selection) : Except Unit EnterResult :=
  match enterGate opts.tabSize doc sels 0 with
  | Except.error e => Except.error e
  | Except.ok none => Except.ok EnterResult.typeNewline
  | Except.ok (some maxLevel) =>
    match collectEdits (enterCursorEdits opts doc
        (getMarkerLevels opts.tabSize doc (primaryActiveLine sels)
          ((maxLevel : Int) - 1))) sels with
    | Except.error e => Except.error e
    | Except.ok es => Except.ok (EnterResult.edits es)

/-- The line numbers inspected by the indent/outdent gate for one
selection: from `max 0 (startLine - 1)` to `endLine` inclusive. -/
def selGateIdxs (sel : Selection) : List Nat :=
  List.range' (sel.startLine - 1) (sel.endLine + 1 - (sel.startLine - 1))

/-- The inner gate loop of onOutdent/onIndent over one selection's
inspected line numbers: parse each line (an unparseable one triggers
the default command for the whole operation, `none`; an out-of-range
read throws and is re-thrown), and push the parsed lines of indices
at or after the selection start (`i > startLine - 1` in integer
arithmetic), tracking the maximum level of the pushed lines. -/
def gateLines (tabSize : Nat) (doc : List String) (startLine : Nat) :
    List Nat → Nat → Except Unit (Option (List ParsedLine × Nat))
  | [], maxLevel => Except.ok (some ([], maxLevel))
  | i :: rest, maxLevel =>
    match lineAt doc i with
    | Except.error e => Except.error e
    | Except.ok text =>
      match parseLine tabSize i text with
      | none => Except.ok none
      | some pl =>
        if startLine ≤ i then
          match gateLines tabSize doc startLine rest
              (if pl.level > maxLevel then pl.level else maxLevel) with
          | Except.ok (some (pls, m)) => Except.ok (some (pl :: pls, m))
          | r => r
        else gateLines tabSize doc startLine rest maxLevel

/-- The outer gate loop of onOutdent/onIndent over all selections,
threading the maximum level and collecting the per-selection parsed
lines. -/
def selectionsGate (tabSize : Nat) (doc : List String) :
    List Selection → Nat → Except Unit (Option (List (List ParsedLine) × Nat))
  | [], maxLevel => Except.ok (some ([], maxLevel))
  | sel :: rest, maxLevel =>
    match gateLines tabSize doc sel.startLine (selGateIdxs sel) maxLevel with
    | Except.error e => Except.error e
    | Except.ok none => Except.ok none
    | Except.ok (some (pls, m)) =>
      match selectionsGate tabSize doc rest m with
      | Except.ok (some (plss, m2)) => Except.ok (some (pls :: plss, m2))
      | r => r

/-- The apply loop of onOutdent/onIndent for one selection: for loop
index i from 0 to endLine - startLine, run the per-line operation on
parsedLines[j][i] (an out-of-bounds access, unreachable, would
crash). -/
def applySelOp (f : ParsedLine → Except Unit (List Edit))
    (pls : List ParsedLine) : List Nat → Except Unit (List Edit)
  | [] => Except.ok []
  | i :: rest =>
    match pls.get? i with
    | none => Except.error ()
    | some pl =>
      match f pl with
      | Except.error e => Except.error e
      | Except.ok es =>
        match applySelOp f pls rest with
        | Except.error e => Except.error e
        | Except.ok rest2 => Except.ok (es ++ rest2)

/-- The apply loops of onOutdent/onIndent over all selections paired
with their gathered parsed lines. -/
def applyAll (f : ParsedLine → Except Unit (List Edit)) :
    List Selection → List (List ParsedLine) → Except Unit (List Edit)
  | [], _ => Except.ok []
  | sel :: rest, plss =>
    match plss with
    | [] => Except.error ()
    | pls :: plssRest =>
      match applySelOp f pls
          (List.range (sel.endLine + 1 - sel.startLine)) with
      | Except.error e => Except.error e
      | Except.ok es =>
        match applyAll f rest plssRest with
        | Except.error e => Except.error e
        | Except.ok rest2 => Except.ok (es ++ rest2)

/-- onOutdent: gate every selection's lines (plus each selection's
preceding line); on any unparseable line invoke the default outdent
command exactly once and edit nothing; otherwise build the marker
table up to maxLevel - 1 and outdent every selected line. -/
def onOutdent (opts : EditorOpts) (doc : List String)
    (sels : List Selection) : Except Unit OpResult :=
  match selectionsGate opts.tabSize doc sels 0 with
  | Except.error e => Except.error e
  | Except.ok none => Except.ok OpResult.defaultCommand
  | Except.ok (some (plss, maxLevel)) =>
    match applyAll (outdentListItem opts doc
        (getMarkerLevels opts.tabSize doc (primaryActiveLine sels)
          ((maxLevel : Int) - 1))) sels plss with
    | Except.error e => Except.error e
    | Except.ok es => Except.ok (OpResult.edits es)

/-- onIndent: same gating as onOutdent; on success build the marker
table up to maxLevel + 1 and indent every selected line. -/
def onIndent (opts : EditorOpts) (doc : List String)
    (sels : List Selection) : Except Unit OpResult :=
  match selectionsGate opts.tabSize doc sels 0 with
  | Except.error e => Except.error e
  | Except.ok none => Except.ok OpResult.defaultCommand
  | Except.ok (some (plss, maxLevel)) =>
    match applyAll (indentListItem opts doc
        (getMarkerLevels opts.tabSize doc (primaryActiveLine sels)
          ((maxLevel : Int) + 1))) sels plss with
    | Except.error e => Except.error e
    | Except.ok es => Except.ok (OpResult.edits es)

/-- Split a character list at newlines into lines. -/
def splitLinesCl : List Char → List (List Char)
  | [] => [[]]
  | '\n' :: rest => [] :: splitLinesCl rest
  | c :: rest =>
    match splitLinesCl rest with
    | [] => [[c]]
    | l :: ls => (c :: l) :: ls

/-- The document rendered as one text with newline separators. -/
def docToText (doc : List String) : String :=
  String.mk (List.intercalate ['\n'] (doc.map String.data))

/-- A text split back into a line list. -/
def textToDoc (s : String) : List String :=
  (splitLinesCl s.data).map String.mk

/-- Character offset of a (line, column) position in the rendered
text of a document. -/
def docOffset (doc : List String) (line col : Nat) : Nat :=
  ((doc.take line).map (fun t => t.length + 1)).sum + col

/-- Apply a single edit to a document snapshot: splice the
replacement text over the edited range of the rendered text and split
back into lines.  This is the observable effect of one submitted
edit. -/
def applyEdit (doc : List String) (e : Edit) : List String :=
  let text := (docToText doc).data
  let splice := fun (a b : Nat) (s : String) =>
    (splitLinesCl (text.take a ++ s.data ++ text.drop b)).map String.mk
  match e with
  | Edit.replace l c1 c2 s => splice (docOffset doc l c1) (docOffset doc l c2) s
  | Edit.insert l c s => splice (docOffset doc l c) (docOffset doc l c) s
  | Edit.delete l1 c1 l2 c2 => splice (docOffset doc l1 c1) (docOffset doc l2 c2) ""

/-- Statement vocabulary: line `j` does not stop the upward scan of
determineMarkerNumber for target level `level` (it is not a list
item, or it is one that is neither a numbered item at exactly the
target level nor an item at a shallower level). -/
def dmnSkips (tabSize : Nat) (doc : List String) (level j : Nat) : Prop :=
  ∀ pl, parseAt tabSize doc j = some pl →
    (pl.markerIsNumber && pl.level == level) = false ∧ ¬ pl.level < level

/-- Statement vocabulary: the frame property of one submitted edit.
A replace touches exactly the head range of a line that parses as a
list item (from column 0 to the original head length); an insert
inserts a newline (possibly followed by a new head); a delete removes
exactly the full text range of one line (never the line break). -/
def editOk (tabSize : Nat) (doc : List String) : Edit → Prop
  | Edit.replace l c1 c2 _ =>
    c1 = 0 ∧ ∃ pl, parseAt tabSize doc l = some pl ∧ c2 = pl.getHead.length
  | Edit.insert _ _ s => ∃ s2, s = "\n" ++ s2
  | Edit.delete l1 c1 l2 c2 =>
    l2 = l1 ∧ c1 = 0 ∧ ∃ t, doc.get? l1 = some t ∧ c2 = t.length

/-- Statement vocabulary: the full marker of the first line, in the
given visit order, that parses as a list item at exactly level `lv`
(`none` when there is no such line). -/
def firstMarkerAt (tabSize : Nat) (doc : List String) (lv : Nat) :
    List Nat → Option String
  | [] => none
  | i :: rest =>
    match parseAt tabSize doc i with
    | some pl =>
      if pl.level = lv then some pl.getFullMarker
      else firstMarkerAt tabSize doc lv rest
    | none => firstMarkerAt tabSize doc lv rest

theorem mclMatchMarkerAppend (cs mk rest2 : List Char)
    (h : matchMarker cs = some (mk, rest2)) : mk ++ rest2 = cs := by
  match cs with
  | [] => simp [matchMarker] at h
  | c :: rest =>
    simp only [matchMarker] at h
    split at h
    · split at h
      next x r2 =>
        split at h
        · obtain ⟨h1, h2⟩ := Option.some.inj h |> Prod.mk.inj
          subst h1; subst h2; rfl
        · obtain ⟨h1, h2⟩ := Option.some.inj h |> Prod.mk.inj
          subst h1; subst h2; rfl
      next =>
        obtain ⟨h1, h2⟩ := Option.some.inj h |> Prod.mk.inj
        subst h1; subst h2; rfl
    · split at h
      · split at h
        next d r2 heq =>
          split at h
          · obtain ⟨h1, h2⟩ := Option.some.inj h |> Prod.mk.inj
            subst h1; subst h2
            have := List.takeWhile_append_dropWhile Char.isDigit (c :: rest)
            rw [heq] at this
            simpa using this
          · exact absurd h (by simp)
        next => exact absurd h (by simp)
      · exact absurd h (by simp)

theorem mclMatchListLineEq (text ws mk sp rem : String)
    (h : matchListLine text = some (ws, mk, sp, rem)) :
    ∃ mkcl rest2,
      matchMarker (text.data.dropWhile isJsSpace) = some (mkcl, rest2) ∧
      ws = String.mk (text.data.takeWhile isJsSpace) ∧
      mk = String.mk mkcl ∧
      sp = String.mk (rest2.takeWhile (fun c => c == ' ')) ∧
      rem = String.mk ((rest2.dropWhile (fun c => c == ' ')).takeWhile
        (fun c => !(isLineTerm c))) ∧
      (rest2.takeWhile (fun c => c == ' ')).isEmpty = false := by
  simp only [matchListLine] at h
  split at h
  · exact absurd h (by simp)
  next mkcl rest2 heq =>
    split at h
    · exact absurd h (by simp)
    next hne =>
      simp only [Option.some.injEq, Prod.mk.injEq] at h
      obtain ⟨h1, h2, h3, h4⟩ := h
      exact ⟨mkcl, rest2, heq, h1.symm, h2.symm, h3.symm, h4.symm,
        Bool.eq_false_iff.2 hne⟩

theorem mclParseLineEq (tabSize lineNumber : Nat) (text : String) (pl : ParsedLine)
    (h : parseLine tabSize lineNumber text = some pl) :
    ∃ ws mk sp rem, matchListLine text = some (ws, mk, sp, rem) ∧
      pl = { lineNumber := lineNumber
             initialSpacing := ws
             initialSpacingAsSpaces := tabsToSpaces tabSize ws
             level := ws.length / tabSize
             marker := mk
             markerInitialSpaces :=
               sDrop (tabsToSpaces tabSize ws) (ws.length / tabSize * tabSize)
             markerIsNumber := (parseMarkerNumber mk).isSome
             markerNumber := (parseMarkerNumber mk).map Prod.fst
             markerDelimiter := (parseMarkerNumber mk).map Prod.snd
             markerTrailingSpaces := sp
             remainder := rem } := by
  simp only [parseLine] at h
  split at h
  · exact absurd h (by simp)
  next ws mk sp rem heq =>
    exact ⟨ws, mk, sp, rem, heq, (Option.some.inj h).symm⟩

theorem mclRoundTripList (text : String) (ws mk sp rem : String)
    (h : matchListLine text = some (ws, mk, sp, rem))
    (hterm : text.data.all (fun c => !(isLineTerm c)) = true) :
    ws.data ++ mk.data ++ sp.data ++ rem.data = text.data := by
  obtain ⟨mkcl, rest2, hmm, hws, hmk, hsp, hrem, _⟩ :=
    mclMatchListLineEq _ _ _ _ _ h
  subst hws hmk hsp hrem
  have h1 := mclMatchMarkerAppend _ _ _ hmm
  have hsub : ∀ c ∈ rest2.dropWhile (fun c => c == ' '), (!(isLineTerm c)) = true := by
    intro c hc
    have hc2 : c ∈ rest2 := (List.dropWhile_suffix _).subset hc
    have hc3 : c ∈ text.data := by
      have : c ∈ mkcl ++ rest2 := List.mem_append_right _ hc2
      rw [h1] at this
      exact (List.dropWhile_suffix _).subset this
    exact List.all_eq_true.1 hterm c hc3
  have htw : (rest2.dropWhile (fun c => c == ' ')).takeWhile
      (fun c => !(isLineTerm c)) = rest2.dropWhile (fun c => c == ' ') :=
    List.takeWhile_eq_self_iff.2 hsub
  show (text.data.takeWhile isJsSpace) ++ mkcl ++ _ ++ _ = text.data
  rw [htw, List.append_assoc, List.append_assoc,
    List.takeWhile_append_dropWhile, h1, List.takeWhile_append_dropWhile]

/-- C4: round-trip identity — for every line text (a line, so free of
line terminators) that parses into a ParsedLine, concatenating the
raw indentation, the marker, the trailing spaces and the remainder
reproduces the original line text exactly. -/
theorem claim4_theorem (tabSize lineNumber : Nat) (text : String) (pl : ParsedLine)
    (h : parseLine tabSize lineNumber text = some pl)
    (hterm : text.data.all (fun c => !(isLineTerm c)) = true) :
    pl.initialSpacing ++ pl.marker ++ pl.markerTrailingSpaces ++ pl.remainder
      = text := by
  obtain ⟨ws, mk, sp, rem, heq, rfl⟩ := mclParseLineEq _ _ _ _ h
  have hl := mclRoundTripList _ _ _ _ _ heq hterm
  show ws ++ mk ++ sp ++ rem = text
  have hws : ws = String.mk ws.data := rfl
  have : ws ++ mk ++ sp ++ rem = String.mk (ws.data ++ mk.data ++ sp.data ++ rem.data) := rfl
  rw [this, hl]

/-- C4 witness: the checkbox line given below parses and
round-trips. -/
theorem claim4_witness :
    parseLine 4 0 "- [x] done" = some
      { lineNumber := 0
        initialSpacing := ""
        initialSpacingAsSpaces := ""
        level := 0
        marker := "- [x]"
        markerInitialSpaces := ""
        markerIsNumber := false
        markerNumber := none
        markerDelimiter := none
        markerTrailingSpaces := " "
        remainder := "done" } ∧
    "" ++ "- [x]" ++ " " ++ "done" = "- [x] done" := by
  constructor
  · rfl
  · exact claim4_theorem 4 0 "- [x] done" _ rfl (by decide)

/-- C1 counterexample: with tab width 4, the line consisting of one
tab, a dash, a space and text parses with level 0, although its
normalized indentation is four spaces, whose length divided by the
tab width is 1 — refuting the claim that level equals
floor(normalized indentation length / tab width) and that a single
leading tab at tab width 4 yields level 1. -/
theorem claim1_counterexample :
    (parseLine 4 0 "\t- x").map ParsedLine.level = some 0 ∧
    (parseLine 4 0 "\t- x").map ParsedLine.initialSpacingAsSpaces = some "    " ∧
    ("    " : String).length / 4 = 1 ∧ (0 : Nat) ≠ 1 := by decide

/-- C1 (amended): for every line that parses as a list item, `level`
equals floor(L / tabWidth) where L is the length of the RAW
indentation (tabs counted as single characters, not expanded), the
normalized indentation is the raw indentation with tabs expanded to
tabWidth spaces, and `markerSpacing` equals exactly the normalized
indentation characters in excess of level * tabWidth; in particular a
single leading tab at tabWidth 4 yields level 0, not level 1. -/
theorem claim1_theorem (tabSize lineNumber : Nat) (text : String) (pl : ParsedLine)
    (h : parseLine tabSize lineNumber text = some pl) :
    pl.level = pl.initialSpacing.length / tabSize ∧
    pl.initialSpacingAsSpaces = tabsToSpaces tabSize pl.initialSpacing ∧
    pl.markerInitialSpaces = sDrop pl.initialSpacingAsSpaces (pl.level * tabSize) ∧
    pl.initialSpacing = String.mk (text.data.takeWhile isJsSpace) := by
  obtain ⟨ws, mk, sp, rem, heq, rfl⟩ := mclParseLineEq _ _ _ _ h
  refine ⟨rfl, rfl, rfl, ?_⟩
  obtain ⟨mkcl, rest2, _, hws, _⟩ := mclMatchListLineEq _ _ _ _ _ heq
  exact hws

/-- C1 witness: the tab-indented line above exercises the amended
statement. -/
theorem claim1_witness :
    (parseLine 4 0 "\t- x").map ParsedLine.level = some 0 ∧
    ("\t" : String).length / 4 = 0 := by
  constructor
  · have h : parseLine 4 0 "\t- x" = some
      { lineNumber := 0
        initialSpacing := "\t"
        initialSpacingAsSpaces := "    "
        level := 0
        marker := "-"
        markerInitialSpaces := "    "
        markerIsNumber := false
        markerNumber := none
        markerDelimiter := none
        markerTrailingSpaces := " "
        remainder := "x" } := rfl
    have h2 := claim1_theorem 4 0 "\t- x" _ h
    rw [h, Option.map_some', h2.1]
    decide
  · decide

theorem mclGetSomeOfLt (doc : List String) (f : Nat) (hf : f < doc.length) :
    ∃ t, doc.get? f = some t := by
  cases hg : doc.get? f with
  | none => exact absurd (List.get?_eq_none.1 hg) (by omega)
  | some t => exact ⟨t, rfl⟩

theorem mclDmnStopNum (tabSize : Nat) (doc : List String) (level : Nat) :
    ∀ fromLine k pl n, fromLine ≤ doc.length → k < fromLine →
      parseAt tabSize doc k = some pl → pl.markerIsNumber = true →
      pl.level = level → pl.markerNumber = some n →
      (∀ j, k < j → j < fromLine → dmnSkips tabSize doc level j) →
      dmnLoop tabSize doc level fromLine = Except.ok (n + 1) := by
  intro fromLine
  induction fromLine with
  | zero => intro k pl n _ hk; omega
  | succ f ih =>
    intro k pl n hlen hk hpa hnum hlev hmn hskips
    obtain ⟨text, htext⟩ := mclGetSomeOfLt doc f (by omega)
    rcases Nat.lt_succ_iff_lt_or_eq.1 hk with hk2 | hk2
    · -- k < f: line f is between, so it does not stop the scan
      have hsk := hskips f hk2 (Nat.lt_succ_self f)
      cases hparse : parseLine tabSize f text with
      | none =>
        rw [show dmnLoop tabSize doc level (f + 1)
            = dmnLoop tabSize doc level f by
          simp only [dmnLoop, htext, hparse]]
        exact ih k pl n (by omega) hk2 hpa hnum hlev hmn
          (fun j h1 h2 => hskips j h1 (by omega))
      | some pl2 =>
        have hpa2 : parseAt tabSize doc f = some pl2 := by
          simp only [parseAt, htext, Option.some_bind, hparse]
        obtain ⟨hc1, hc2⟩ := hsk pl2 hpa2
        rw [show dmnLoop tabSize doc level (f + 1)
            = dmnLoop tabSize doc level f by
          simp only [dmnLoop, htext, hparse, hc1, if_neg, Bool.false_eq_true,
            not_false_iff, hc2]]
        exact ih k pl n (by omega) hk2 hpa hnum hlev hmn
          (fun j h1 h2 => hskips j h1 (by omega))
    · -- k = f: this is the stopping line
      subst hk2
      have hparse : parseLine tabSize k text = some pl := by
        have := hpa
        simp only [parseAt, htext, Option.some_bind] at this
        exact this
      have hcond : (pl.markerIsNumber && pl.level == level) = true := by
        rw [hnum, hlev]; simp
      simp only [dmnLoop, htext, hparse, hcond, if_pos, hmn, Option.getD_some]

theorem mclDmnStopShallow (tabSize : Nat) (doc : List String) (level : Nat) :
    ∀ fromLine k pl, fromLine ≤ doc.length → k < fromLine →
      parseAt tabSize doc k = some pl → pl.level < level →
      (∀ j, k < j → j < fromLine → dmnSkips tabSize doc level j) →
      dmnLoop tabSize doc level fromLine = Except.ok 1 := by
  intro fromLine
  induction fromLine with
  | zero => intro k pl _ hk; omega
  | succ f ih =>
    intro k pl hlen hk hpa hlt hskips
    obtain ⟨text, htext⟩ := mclGetSomeOfLt doc f (by omega)
    rcases Nat.lt_succ_iff_lt_or_eq.1 hk with hk2 | hk2
    · have hsk := hskips f hk2 (Nat.lt_succ_self f)
      cases hparse : parseLine tabSize f text with
      | none =>
        rw [show dmnLoop tabSize doc level (f + 1)
            = dmnLoop tabSize doc level f by
          simp only [dmnLoop, htext, hparse]]
        exact ih k pl (by omega) hk2 hpa hlt
          (fun j h1 h2 => hskips j h1 (by omega))
      | some pl2 =>
        have hpa2 : parseAt tabSize doc f = some pl2 := by
          simp only [parseAt, htext, Option.some_bind, hparse]
        obtain ⟨hc1, hc2⟩ := hsk pl2 hpa2
        rw [show dmnLoop tabSize doc level (f + 1)
            = dmnLoop tabSize doc level f by
          simp only [dmnLoop, htext, hparse, hc1, if_neg, Bool.false_eq_true,
            not_false_iff, hc2]]
        exact ih k pl (by omega) hk2 hpa hlt
          (fun j h1 h2 => hskips j h1 (by omega))
    · subst hk2
      have hparse : parseLine tabSize k text = some pl := by
        have := hpa
        simp only [parseAt, htext, Option.some_bind] at this
        exact this
      have hcond : (pl.markerIsNumber && pl.level == level) = false := by
        have : (pl.level == level) = false := by
          simp [Nat.ne_of_lt hlt]
        rw [this, Bool.and_false]
      simp only [dmnLoop, htext, hparse, hcond, Bool.false_eq_true, if_false,
        hlt, if_pos]

/-- C2: the upward scan of the number resolver stops at the first
parsed line whose level equals the target exactly and whose marker is
ordered, returning that line's number + 1; it stops with 1 at the
first parsed line whose level is strictly below the target; and a
parsed line whose level is strictly above the target is skipped
without stopping the scan. -/
theorem claim2_theorem (tabSize : Nat) (doc : List String) (fromLine level : Nat) :
    (∀ k pl n, fromLine ≤ doc.length → k < fromLine →
      parseAt tabSize doc k = some pl → pl.markerIsNumber = true →
      pl.level = level → pl.markerNumber = some n →
      (∀ j, k < j → j < fromLine → dmnSkips tabSize doc level j) →
      determineMarkerNumber tabSize doc fromLine level = Except.ok (n + 1)) ∧
    (∀ k pl, fromLine ≤ doc.length → k < fromLine →
      parseAt tabSize doc k = some pl → pl.level < level →
      (∀ j, k < j → j < fromLine → dmnSkips tabSize doc level j) →
      determineMarkerNumber tabSize doc fromLine level = Except.ok 1) ∧
    (∀ f pl, fromLine = f + 1 → parseAt tabSize doc f = some pl →
      level < pl.level →
      determineMarkerNumber tabSize doc fromLine level =
        determineMarkerNumber tabSize doc f level) := by
  refine ⟨?_, ?_, ?_⟩
  · intro k pl n hlen hk hpa hnum hlev hmn hskips
    exact mclDmnStopNum tabSize doc level fromLine k pl n hlen hk hpa hnum
      hlev hmn hskips
  · intro k pl hlen hk hpa hlt hskips
    exact mclDmnStopShallow tabSize doc level fromLine k pl hlen hk hpa hlt
      hskips
  · intro f pl hfl hpa hgt
    subst hfl
    obtain ⟨text, htext, hparse⟩ : ∃ t, doc.get? f = some t ∧
        parseLine tabSize f t = some pl := by
      unfold parseAt at hpa
      cases hg : doc.get? f with
      | none => rw [hg] at hpa; simp at hpa
      | some t =>
        rw [hg] at hpa
        exact ⟨t, rfl, by simpa using hpa⟩
    have hcond : (pl.markerIsNumber && pl.level == level) = false := by
      have : (pl.level == level) = false := by
        simp [Nat.ne_of_gt hgt]
      rw [this, Bool.and_false]
    have hcond2 : ¬ pl.level < level := by omega
    show dmnLoop tabSize doc level (f + 1) = dmnLoop tabSize doc level f
    simp only [dmnLoop, htext, hparse, hcond, Bool.false_eq_true, if_false,
      hcond2]

/-- C2 witness: the three stop/skip behaviours at concrete inputs. -/
theorem claim2_witness :
    determineMarkerNumber 4 ["1. a"] 1 0 = Except.ok 2 ∧
    determineMarkerNumber 4 ["1. a"] 1 1 = Except.ok 1 ∧
    determineMarkerNumber 2 ["  - x"] 1 0 = determineMarkerNumber 2 ["  - x"] 0 0 := by
  refine ⟨?_, ?_, ?_⟩
  · exact (claim2_theorem 4 ["1. a"] 1 0).1 0 _ 1 (by decide) (by decide) rfl
      rfl rfl rfl (fun j h1 h2 => by omega)
  · exact (claim2_theorem 4 ["1. a"] 1 1).2.1 0 _ (by decide) (by decide) rfl
      (by decide) (fun j h1 h2 => by omega)
  · exact (claim2_theorem 2 ["  - x"] 1 0).2.2 0 _ rfl rfl (by decide)

/-- C3 (evaluating the code at the failing input): on a one-line
document whose line is not a list item, resolving a number from line
1 scans past line 0, decrements the line counter to -1 and reads
line -1, whose lineAt error is re-thrown — the operation aborts with
an error instead of returning 1 at the document start. -/
theorem claim3_theorem :
    determineMarkerNumber 4 ["x"] 1 0 = Except.error () := rfl

theorem mclSparseGetSetSelf : ∀ (a : List (Option String)) (i : Nat) (v : String),
    sparseGet (sparseSet a i v) i = some v := by
  intro a
  induction a with
  | nil =>
    intro i v
    induction i with
    | zero => rfl
    | succ j ihj => simpa [sparseSet, sparseGet] using ihj
  | cons x rest ih =>
    intro i v
    cases i with
    | zero => rfl
    | succ j => simpa [sparseSet, sparseGet] using ih j v

theorem mclSparseGetSetNe : ∀ (a : List (Option String)) (i : Nat) (v : String)
    (j : Nat), j ≠ i → sparseGet (sparseSet a i v) j = sparseGet a j := by
  intro a
  induction a with
  | nil =>
    intro i
    induction i with
    | zero =>
      intro v j hj
      cases j with
      | zero => exact absurd rfl hj
      | succ j2 => rfl
    | succ i2 ihi =>
      intro v j hj
      cases j with
      | zero => rfl
      | succ j2 =>
        show sparseGet (sparseSet [] i2 v) j2 = sparseGet [] j2
        exact ihi v j2 (by omega)
  | cons x rest ih =>
    intro i v j hj
    cases i with
    | zero =>
      cases j with
      | zero => exact absurd rfl hj
      | succ j2 => rfl
    | succ i2 =>
      cases j with
      | zero => rfl
      | succ j2 => exact ih i2 v j2 (by omega)

theorem mclCountSomeSet : ∀ (a : List (Option String)) (i : Nat) (v : String),
    sparseGet a i = none → countSome (sparseSet a i v) = countSome a + 1 := by
  intro a
  induction a with
  | nil =>
    intro i v _
    induction i with
    | zero => rfl
    | succ j ihj => simpa [sparseSet, countSome] using ihj rfl
  | cons x rest ih =>
    intro i v hnone
    cases i with
    | zero =>
      cases x with
      | none => rfl
      | some w => simp [sparseGet] at hnone
    | succ j =>
      have := ih j v hnone
      cases x with
      | none => simpa [sparseSet, countSome] using this
      | some w => simpa [sparseSet, countSome] using this

theorem mclLenSet : ∀ (a : List (Option String)) (i : Nat) (v : String),
    (sparseSet a i v).length = max a.length (i + 1) := by
  intro a
  induction a with
  | nil =>
    intro i v
    induction i with
    | zero => rfl
    | succ j ihj => simp [sparseSet, ihj]
  | cons x rest ih =>
    intro i v
    cases i with
    | zero => simp only [sparseSet, List.length_cons]; omega
    | succ j => simp only [sparseSet, List.length_cons, ih j v]; omega

theorem mclCountSomeLe : ∀ (a : List (Option String)), countSome a ≤ a.length := by
  intro a
  induction a with
  | nil => exact Nat.le_refl 0
  | cons x rest ih =>
    cases x with
    | none => simp [countSome]; omega
    | some w => simp [countSome]; omega

theorem mclCountSomeLt : ∀ (a : List (Option String)) (i : Nat), i < a.length →
    sparseGet a i = none → countSome a < a.length := by
  intro a
  induction a with
  | nil => intro i h; simp at h
  | cons x rest ih =>
    intro i hi hnone
    cases i with
    | zero =>
      cases x with
      | none => have := mclCountSomeLe rest; simp [countSome]; omega
      | some w => simp [sparseGet] at hnone
    | succ j =>
      have hj : j < rest.length := by simpa using hi
      have := ih j hj hnone
      cases x with
      | none => simp [countSome]; omega
      | some w => simp [countSome]; omega

theorem mclGmlChar (tabSize : Nat) (doc : List String) (maxLevel : Int)
    (lv : Nat) (hlv : (lv : Int) ≤ maxLevel) :
    ∀ (idxs : List Nat) (acc : List (Option String)) (rec : Nat),
      rec = countSome acc → ((acc.length : Int) ≤ maxLevel + 1) →
      sparseGet (gmlLoop tabSize doc maxLevel idxs acc rec) lv =
        Option.or (sparseGet acc lv) (firstMarkerAt tabSize doc lv idxs) := by
  intro idxs
  induction idxs with
  | nil =>
    intro acc rec hrec hlen
    simp only [gmlLoop, firstMarkerAt]
    cases sparseGet acc lv <;> rfl
  | cons i rest ih =>
    intro acc rec hrec hlen
    cases hpa : parseAt tabSize doc i with
    | none =>
      simp only [gmlLoop, hpa, firstMarkerAt]
      exact ih acc rec hrec hlen
    | some pl =>
      by_cases hsg : (sparseGet acc pl.level).isSome = true
      · -- level already recorded: line skipped, entry kept
        simp only [gmlLoop, hpa, hsg, if_pos, firstMarkerAt]
        rw [ih acc rec hrec hlen]
        by_cases hpl : pl.level = lv
        · subst hpl
          obtain ⟨v, hv⟩ := Option.isSome_iff_exists.1 hsg
          rw [hv, if_pos rfl]
          rfl
        · rw [if_neg hpl]
      · have hsgn : sparseGet acc pl.level = none := by
          cases hg : sparseGet acc pl.level with
          | none => rfl
          | some v => rw [hg] at hsg; simp at hsg
        by_cases hml : (pl.level : Int) > maxLevel
        · -- deeper than maxLevel: skipped
          simp only [gmlLoop, hpa, firstMarkerAt]
          rw [if_neg hsg, if_pos hml, ih acc rec hrec hlen]
          have hpl : pl.level ≠ lv := by
            intro hcon
            rw [hcon] at hml
            omega
          rw [if_neg hpl]
        · -- recorded now
          have hplm : (pl.level : Int) ≤ maxLevel := by omega
          have hc2 : countSome (sparseSet acc pl.level pl.getFullMarker)
              = countSome acc + 1 := mclCountSomeSet acc pl.level _ hsgn
          have hlen2 : ((sparseSet acc pl.level pl.getFullMarker).length : Int)
              ≤ maxLevel + 1 := by
            rw [mclLenSet acc pl.level _]
            push_cast
            omega
          simp only [gmlLoop, hpa, firstMarkerAt]
          rw [if_neg hsg, if_neg hml]
          by_cases hbrk : ((rec + 1 : Nat) : Int) > maxLevel
          · rw [if_pos hbrk]
            by_cases hpl : pl.level = lv
            · subst hpl
              rw [mclSparseGetSetSelf, hsgn, if_pos rfl]
              rfl
            · rw [mclSparseGetSetNe acc pl.level _ lv (fun hcon => hpl hcon.symm),
                if_neg hpl]
              -- the break implies every level up to maxLevel, lv included,
              -- is recorded, so the lv entry cannot be a hole
              cases hglv : sparseGet acc lv with
              | some v => rfl
              | none =>
                exfalso
                have hglv2 : sparseGet (sparseSet acc pl.level pl.getFullMarker)
                    lv = none := by
                  rw [mclSparseGetSetNe acc pl.level _ lv
                    (fun hcon => hpl hcon.symm)]
                  exact hglv
                have hcnt : (countSome (sparseSet acc pl.level
                    pl.getFullMarker) : Int) > maxLevel := by
                  rw [hc2, ← hrec]
                  push_cast
                  push_cast at hbrk
                  omega
                by_cases hcase : lv < (sparseSet acc pl.level pl.getFullMarker).length
                · have := mclCountSomeLt _ lv hcase hglv2
                  have hle := hlen2
                  push_cast at hcnt
                  omega
                · have h1 := mclCountSomeLe (sparseSet acc pl.level pl.getFullMarker)
                  have h2 : (sparseSet acc pl.level pl.getFullMarker).length ≤ lv := by
                    omega
                  push_cast at hcnt
                  omega
          · rw [if_neg hbrk]
            rw [ih (sparseSet acc pl.level pl.getFullMarker) (rec + 1)
              (by rw [hc2, hrec]) hlen2]
            by_cases hpl : pl.level = lv
            · subst hpl
              rw [mclSparseGetSetSelf, hsgn, if_pos rfl]
              rfl
            · rw [mclSparseGetSetNe acc pl.level _ lv (fun hcon => hpl hcon.symm),
                if_neg hpl]

theorem mclVisitOrderSplit (n a : Nat) (h : a < n) :
    visitOrder n a = (List.range (a + 1)).map (fun i => a - i)
      ++ List.range' (a + 1) (n - (a + 1)) := by
  unfold visitOrder
  have h1 := List.range'_append 0 (a + 1) (n - (a + 1)) 1
  have h2 : List.range n = List.range (a + 1) ++ List.range' (a + 1) (n - (a + 1)) := by
    rw [List.range_eq_range', List.range_eq_range']
    rw [show 0 + 1 * (a + 1) = a + 1 by omega, show n - (a + 1) + (a + 1) = n by omega] at h1
    exact h1.symm
  rw [h2, List.map_append]
  congr 1
  · exact List.map_congr_left (fun i hi => by
      rw [if_pos (by simpa [Nat.lt_succ_iff] using List.mem_range.1 hi)])
  · have : ∀ i ∈ List.range' (a + 1) (n - (a + 1)),
        (if i ≤ a then a - i else i) = i := by
      intro i hi
      rw [if_neg (by
        have := (List.mem_range'_1.1 hi).1
        omega)]
    rw [List.map_congr_left this]
    exact List.map_id' _

/-- C7: the marker table builder visits lines nearest-first — the
active line, then one line at a time backward to line 0, then forward
from the line after the active line to the document end — and for
every level up to maxLevel the resulting entry is the full marker of
the first list-item line at that level in that visit order (no
overwrite; levels with no such line stay empty). -/
theorem claim7_theorem (tabSize : Nat) (doc : List String) (activeLine : Nat)
    (maxLevel : Int) (lv : Nat) (hact : activeLine < doc.length)
    (hlv : (lv : Int) ≤ maxLevel) :
    visitOrder doc.length activeLine
      = (List.range (activeLine + 1)).map (fun i => activeLine - i)
        ++ List.range' (activeLine + 1) (doc.length - (activeLine + 1)) ∧
    sparseGet (getMarkerLevels tabSize doc activeLine maxLevel) lv
      = firstMarkerAt tabSize doc lv (visitOrder doc.length activeLine) := by
  refine ⟨mclVisitOrderSplit _ _ hact, ?_⟩
  unfold getMarkerLevels
  rw [mclGmlChar tabSize doc maxLevel lv hlv _ [] 0 rfl (by simp; omega)]
  rfl

/-- C7 witness: with the active line in the middle of a three-line
document, the visit order and both table entries are as the theorem
states. -/
theorem claim7_witness :
    (visitOrder 3 1 = [1, 0] ++ [2] ∧
      sparseGet (getMarkerLevels 2 ["- a", "  * b", "x"] 1 1) 0
        = firstMarkerAt 2 ["- a", "  * b", "x"] 0 (visitOrder 3 1)) ∧
    sparseGet (getMarkerLevels 2 ["- a", "  * b", "x"] 1 1) 1
      = firstMarkerAt 2 ["- a", "  * b", "x"] 1 (visitOrder 3 1) := by
  constructor
  · have h := claim7_theorem 2 ["- a", "  * b", "x"] 1 1 0 (by decide) (by decide)
    exact ⟨by decide, h.2⟩
  · exact (claim7_theorem 2 ["- a", "  * b", "x"] 1 1 1 (by decide) (by decide)).2

theorem mclParseLineNumber (tabSize lineNumber : Nat) (text : String)
    (pl : ParsedLine) (h : parseLine tabSize lineNumber text = some pl) :
    pl.lineNumber = lineNumber := by
  obtain ⟨ws, mk, sp, rem, _, rfl⟩ := mclParseLineEq _ _ _ _ h
  rfl

theorem mclEnterGateNone (tabSize : Nat) (doc : List String) :
    ∀ (sels : List Selection) (maxLevel : Nat),
      (∀ sel ∈ sels, sel.activeLine < doc.length) →
      (∃ sel ∈ sels, ∃ text, doc.get? sel.activeLine = some text ∧
        (parseLine tabSize sel.activeLine text = none ∨
         (sDrop text sel.activeChar).data.all isJsSpace = false)) →
      enterGate tabSize doc sels maxLevel = Except.ok none := by
  intro sels
  induction sels with
  | nil =>
    intro maxLevel _ hfail
    obtain ⟨sel, hmem, _⟩ := hfail
    exact absurd hmem (List.not_mem_nil sel)
  | cons sel rest ih =>
    intro maxLevel hvalid hfail
    obtain ⟨t, ht⟩ := mclGetSomeOfLt doc sel.activeLine
      (hvalid sel (List.mem_cons_self _ _))
    have hla : lineAt doc sel.activeLine = Except.ok t := by
      unfold lineAt
      rw [ht]
    cases hparse : parseLine tabSize sel.activeLine t with
    | none => simp [enterGate, hla, hparse]
    | some pl =>
      by_cases hws : (sDrop t sel.activeChar).data.all isJsSpace = true
      · have hrest : ∃ sel2 ∈ rest, ∃ text, doc.get? sel2.activeLine = some text ∧
            (parseLine tabSize sel2.activeLine text = none ∨
             (sDrop text sel2.activeChar).data.all isJsSpace = false) := by
          obtain ⟨sel2, hmem, text2, htx, hor⟩ := hfail
          rcases List.mem_cons.1 hmem with heq | hmem2
          · subst heq
            have htt : text2 = t := Option.some.inj (htx.symm.trans ht)
            subst htt
            rcases hor with h1 | h1
            · rw [hparse] at h1
              cases h1
            · rw [hws] at h1
              cases h1
          · exact ⟨sel2, hmem2, text2, htx, hor⟩
        simp only [enterGate, hla, hparse, hws, if_pos]
        exact ih _ (fun s hs => hvalid s (List.mem_cons_of_mem _ hs)) hrest
      · simp only [enterGate, hla, hparse]
        rw [if_neg hws]

/-- C5: if any cursor of a multi-cursor Continue fails the gate — its
line does not parse as a list item, or something other than
whitespace follows the cursor on its line — the whole operation
degrades to the host "type" command, which inserts a plain newline at
every cursor, and no list-continuation edit is submitted for any
cursor; the decision is taken up front against the original
document. -/
theorem claim5_theorem (opts : EditorOpts) (doc : List String)
    (sels : List Selection)
    (hvalid : ∀ sel ∈ sels, sel.activeLine < doc.length)
    (hfail : ∃ sel ∈ sels, ∃ text, doc.get? sel.activeLine = some text ∧
      (parseLine opts.tabSize sel.activeLine text = none ∨
       (sDrop text sel.activeChar).data.all isJsSpace = false)) :
    onEnterKey opts doc sels = Except.ok EnterResult.typeNewline := by
  unfold onEnterKey
  rw [mclEnterGateNone opts.tabSize doc sels 0 hvalid hfail]

/-- C5 witness: of two cursors, the second sits on a non-list line;
the whole operation degrades to a plain newline. -/
theorem claim5_witness :
    onEnterKey ⟨4, true, ["-"], BlankBehaviour.outdent⟩ ["- a", "x"]
      [⟨0, 3, 0, 3, 0, 3⟩, ⟨1, 1, 1, 1, 1, 1⟩] = Except.ok EnterResult.typeNewline := by
  refine claim5_theorem _ _ _ ?_ ?_
  · intro sel hsel
    rcases List.mem_cons.1 hsel with h | h
    · subst h; decide
    · rcases List.mem_cons.1 h with h2 | h2
      · subst h2; decide
      · exact absurd h2 (List.not_mem_nil sel)
  · exact ⟨⟨1, 1, 1, 1, 1, 1⟩, by decide, "x", rfl, Or.inl rfl⟩

theorem mclGateLinesNone (tabSize : Nat) (doc : List String) (startLine : Nat) :
    ∀ (idxs : List Nat) (maxLevel : Nat),
      (∀ i ∈ idxs, i < doc.length) →
      (∃ i ∈ idxs, ∃ text, doc.get? i = some text ∧
        parseLine tabSize i text = none) →
      gateLines tabSize doc startLine idxs maxLevel = Except.ok none := by
  intro idxs
  induction idxs with
  | nil =>
    intro maxLevel _ hfail
    obtain ⟨i, hmem, _⟩ := hfail
    exact absurd hmem (List.not_mem_nil i)
  | cons i rest ih =>
    intro maxLevel hvalid hfail
    obtain ⟨t, ht⟩ := mclGetSomeOfLt doc i (hvalid i (List.mem_cons_self _ _))
    have hla : lineAt doc i = Except.ok t := by
      unfold lineAt
      rw [ht]
    cases hparse : parseLine tabSize i t with
    | none => simp [gateLines, hla, hparse]
    | some pl =>
      have hrest : ∃ i2 ∈ rest, ∃ text, doc.get? i2 = some text ∧
          parseLine tabSize i2 text = none := by
        obtain ⟨i2, hmem, text2, htx, hp2⟩ := hfail
        rcases List.mem_cons.1 hmem with heq | hmem2
        · subst heq
          have htt : text2 = t := Option.some.inj (htx.symm.trans ht)
          subst htt
          rw [hparse] at hp2
          cases hp2
        · exact ⟨i2, hmem2, text2, htx, hp2⟩
      have hvrest : ∀ i2 ∈ rest, i2 < doc.length :=
        fun i2 h2 => hvalid i2 (List.mem_cons_of_mem _ h2)
      by_cases hsl : startLine ≤ i
      · simp only [gateLines, hla, hparse]
        rw [if_pos hsl, ih _ hvrest hrest]
      · simp only [gateLines, hla, hparse]
        rw [if_neg hsl, ih _ hvrest hrest]

theorem mclGateLinesSome (tabSize : Nat) (doc : List String) (startLine : Nat) :
    ∀ (idxs : List Nat) (maxLevel : Nat),
      (∀ i ∈ idxs, ∃ pl, parseAt tabSize doc i = some pl) →
      ∃ pls m2, gateLines tabSize doc startLine idxs maxLevel
          = Except.ok (some (pls, m2)) ∧
        ∀ pl ∈ pls, parseAt tabSize doc pl.lineNumber = some pl := by
  intro idxs
  induction idxs with
  | nil =>
    intro maxLevel _
    exact ⟨[], maxLevel, rfl, fun pl h => absurd h (List.not_mem_nil pl)⟩
  | cons i rest ih =>
    intro maxLevel hall
    obtain ⟨pl, hpl⟩ := hall i (List.mem_cons_self _ _)
    obtain ⟨t, ht, hparse⟩ : ∃ t, doc.get? i = some t ∧
        parseLine tabSize i t = some pl := by
      unfold parseAt at hpl
      cases hg : doc.get? i with
      | none => rw [hg] at hpl; simp at hpl
      | some t =>
        rw [hg] at hpl
        exact ⟨t, rfl, by simpa using hpl⟩
    have hla : lineAt doc i = Except.ok t := by
      unfold lineAt
      rw [ht]
    have hpli : parseAt tabSize doc pl.lineNumber = some pl := by
      rw [mclParseLineNumber tabSize i t pl hparse]
      exact hpl
    have hallrest : ∀ i2 ∈ rest, ∃ pl2, parseAt tabSize doc i2 = some pl2 :=
      fun i2 h2 => hall i2 (List.mem_cons_of_mem _ h2)
    by_cases hsl : startLine ≤ i
    · obtain ⟨pls, m2, hgl, hinv⟩ := ih
        (if pl.level > maxLevel then pl.level else maxLevel) hallrest
      refine ⟨pl :: pls, m2, ?_, ?_⟩
      · simp only [gateLines, hla, hparse]
        rw [if_pos hsl, hgl]
      · intro p hp
        rcases List.mem_cons.1 hp with heq | hmem2
        · subst heq
          exact hpli
        · exact hinv p hmem2
    · obtain ⟨pls, m2, hgl, hinv⟩ := ih maxLevel hallrest
      refine ⟨pls, m2, ?_, hinv⟩
      simp only [gateLines, hla, hparse]
      rw [if_neg hsl, hgl]

theorem mclSelIdxsLe (sel : Selection) (i : Nat) (h : i ∈ selGateIdxs sel) :
    i ≤ sel.endLine := by
  unfold selGateIdxs at h
  have := List.mem_range'_1.1 h
  omega

theorem mclSelectionsGateNone (tabSize : Nat) (doc : List String) :
    ∀ (sels : List Selection) (maxLevel : Nat),
      (∀ sel ∈ sels, sel.endLine < doc.length) →
      (∃ sel ∈ sels, ∃ i ∈ selGateIdxs sel, ∃ text, doc.get? i = some text ∧
        parseLine tabSize i text = none) →
      selectionsGate tabSize doc sels maxLevel = Except.ok none := by
  intro sels
  induction sels with
  | nil =>
    intro maxLevel _ hfail
    obtain ⟨sel, hmem, _⟩ := hfail
    exact absurd hmem (List.not_mem_nil sel)
  | cons sel rest ih =>
    intro maxLevel hvalid hfail
    have hvidx : ∀ i ∈ selGateIdxs sel, i < doc.length := by
      intro i hi
      have := mclSelIdxsLe sel i hi
      have := hvalid sel (List.mem_cons_self _ _)
      omega
    by_cases hhead : ∃ i ∈ selGateIdxs sel, ∃ text, doc.get? i = some text ∧
        parseLine tabSize i text = none
    · have hgl := mclGateLinesNone tabSize doc sel.startLine
        (selGateIdxs sel) maxLevel hvidx hhead
      simp only [selectionsGate, hgl]
    · have hall : ∀ i ∈ selGateIdxs sel, ∃ pl, parseAt tabSize doc i = some pl := by
        intro i hi
        obtain ⟨t, ht⟩ := mclGetSomeOfLt doc i (hvidx i hi)
        cases hparse : parseLine tabSize i t with
        | none => exact absurd ⟨i, hi, t, ht, hparse⟩ hhead
        | some pl =>
          refine ⟨pl, ?_⟩
          unfold parseAt
          rw [ht, Option.some_bind, hparse]
      obtain ⟨pls, m2, hgl, _⟩ := mclGateLinesSome tabSize doc sel.startLine
        (selGateIdxs sel) maxLevel hall
      have hrest : ∃ sel2 ∈ rest, ∃ i ∈ selGateIdxs sel2, ∃ text,
          doc.get? i = some text ∧ parseLine tabSize i text = none := by
        obtain ⟨sel2, hmem, hrest2⟩ := hfail
        rcases List.mem_cons.1 hmem with heq | hmem2
        · subst heq
          exact absurd hrest2 hhead
        · exact ⟨sel2, hmem2, hrest2⟩
      simp only [selectionsGate, hgl]
      rw [ih m2 (fun s hs => hvalid s (List.mem_cons_of_mem _ hs)) hrest]

theorem mclSelectionsGateSome (tabSize : Nat) (doc : List String) :
    ∀ (sels : List Selection) (maxLevel : Nat),
      (∀ sel ∈ sels, ∀ i ∈ selGateIdxs sel, ∃ pl, parseAt tabSize doc i = some pl) →
      ∃ plss m2, selectionsGate tabSize doc sels maxLevel
          = Except.ok (some (plss, m2)) ∧
        ∀ pls ∈ plss, ∀ pl ∈ pls, parseAt tabSize doc pl.lineNumber = some pl := by
  intro sels
  induction sels with
  | nil =>
    intro maxLevel _
    exact ⟨[], maxLevel, rfl, fun pls h => absurd h (List.not_mem_nil pls)⟩
  | cons sel rest ih =>
    intro maxLevel hall
    obtain ⟨pls, m2, hgl, hinv⟩ := mclGateLinesSome tabSize doc sel.startLine
      (selGateIdxs sel) maxLevel (hall sel (List.mem_cons_self _ _))
    obtain ⟨plss, m3, hsg, hinv2⟩ := ih m2
      (fun s hs => hall s (List.mem_cons_of_mem _ hs))
    refine ⟨pls :: plss, m3, ?_, ?_⟩
    · simp only [selectionsGate, hgl, hsg]
    · intro p hp
      rcases List.mem_cons.1 hp with heq | hmem2
      · subst heq
        exact hinv
      · exact hinv2 p hmem2

/-- C6: whenever some inspected line of an Indent or Outdent
invocation — a line spanned by a selection or the line immediately
preceding a selection's start — fails to parse as a list item, the
operation performs no head or line mutation of its own and signals
the external default indent/outdent command exactly once. -/
theorem claim6_theorem (opts : EditorOpts) (doc : List String)
    (sels : List Selection)
    (hvalid : ∀ sel ∈ sels, sel.endLine < doc.length)
    (hfail : ∃ sel ∈ sels, ∃ i ∈ selGateIdxs sel, ∃ text,
      doc.get? i = some text ∧ parseLine opts.tabSize i text = none) :
    onOutdent opts doc sels = Except.ok OpResult.defaultCommand ∧
    onIndent opts doc sels = Except.ok OpResult.defaultCommand := by
  have hgate := mclSelectionsGateNone opts.tabSize doc sels 0 hvalid hfail
  constructor
  · unfold onOutdent
    rw [hgate]
  · unfold onIndent
    rw [hgate]

/-- C6 witness: a selection over a list line and a plain line defers
both operations to the default command. -/
theorem claim6_witness :
    onOutdent ⟨2, true, ["-"], BlankBehaviour.outdent⟩ ["- a", "x"]
      [⟨1, 0, 1, 0, 1, 0⟩] = Except.ok OpResult.defaultCommand ∧
    onIndent ⟨2, true, ["-"], BlankBehaviour.outdent⟩ ["- a", "x"]
      [⟨1, 0, 1, 0, 1, 0⟩] = Except.ok OpResult.defaultCommand := by
  refine claim6_theorem _ _ _ ?_ ?_
  · intro sel hsel
    rcases List.mem_cons.1 hsel with h | h
    · subst h; decide
    · exact absurd h (List.not_mem_nil sel)
  · exact ⟨⟨1, 0, 1, 0, 1, 0⟩, by decide, 1, by decide, "x", rfl, rfl⟩

/-- C10: for a selection starting at line 0 the gate inspects only
the lines of the selection itself (line numbers 0 to endLine) — there
is no preceding-line check — so when all those lines parse, the
operation never defers to the default command on account of a missing
previous line. -/
theorem claim10_theorem (opts : EditorOpts) (doc : List String) (sel : Selection)
    (hstart : sel.startLine = 0)
    (hall : ∀ i, i ≤ sel.endLine → ∃ pl, parseAt opts.tabSize doc i = some pl) :
    selGateIdxs sel = List.range (sel.endLine + 1) ∧
    onOutdent opts doc [sel] ≠ Except.ok OpResult.defaultCommand ∧
    onIndent opts doc [sel] ≠ Except.ok OpResult.defaultCommand := by
  have hidx : selGateIdxs sel = List.range (sel.endLine + 1) := by
    unfold selGateIdxs
    rw [hstart, List.range_eq_range']
    simp
  have hall2 : ∀ s ∈ [sel], ∀ i ∈ selGateIdxs s,
      ∃ pl, parseAt opts.tabSize doc i = some pl := by
    intro s hs i hi
    rcases List.mem_cons.1 hs with h | h
    · subst h
      exact hall i (mclSelIdxsLe _ i hi)
    · exact absurd h (List.not_mem_nil _)
  obtain ⟨plss, m2, hsg, _⟩ := mclSelectionsGateSome opts.tabSize doc [sel] 0 hall2
  refine ⟨hidx, ?_, ?_⟩
  · unfold onOutdent
    rw [hsg]
    cases happ : applyAll (outdentListItem opts doc
        (getMarkerLevels opts.tabSize doc (primaryActiveLine [sel])
          ((m2 : Int) - 1))) [sel] plss with
    | error e => simp [happ]
    | ok es => simp [happ]
  · unfold onIndent
    rw [hsg]
    cases happ : applyAll (indentListItem opts doc
        (getMarkerLevels opts.tabSize doc (primaryActiveLine [sel])
          ((m2 : Int) + 1))) [sel] plss with
    | error e => simp [happ]
    | ok es => simp [happ]

/-- C10 witness: a single-line selection at line 0 of a one-line list
document is never deferred to the default command. -/
theorem claim10_witness :
    selGateIdxs ⟨0, 0, 0, 0, 0, 0⟩ = List.range 1 ∧
    onOutdent ⟨2, true, ["-"], BlankBehaviour.outdent⟩ ["- a"]
      [⟨0, 0, 0, 0, 0, 0⟩] ≠ Except.ok OpResult.defaultCommand ∧
    onIndent ⟨2, true, ["-"], BlankBehaviour.outdent⟩ ["- a"]
      [⟨0, 0, 0, 0, 0, 0⟩] ≠ Except.ok OpResult.defaultCommand := by
  refine claim10_theorem _ _ _ rfl ?_
  intro i hi
  have h0 : i = 0 := Nat.le_zero.mp hi
  subst h0
  exact ⟨_, rfl⟩

theorem mclLineAtSome (doc : List String) (i : Nat) (text : String)
    (h : lineAt doc i = Except.ok text) : doc.get? i = some text := by
  unfold lineAt at h
  cases hg : doc.get? i with
  | none => rw [hg] at h; cases h
  | some t =>
    rw [hg] at h
    cases h
    rfl

theorem mclOutdentEditOk (opts : EditorOpts) (doc : List String)
    (markerLevels : List (Option String)) (pl : ParsedLine)
    (hpl : parseAt opts.tabSize doc pl.lineNumber = some pl) :
    ∀ es, outdentListItem opts doc markerLevels pl = Except.ok es →
      ∀ e ∈ es, editOk opts.tabSize doc e := by
  intro es hout e he
  unfold outdentListItem at hout
  split at hout
  · cases hout
    exact absurd he (List.not_mem_nil e)
  · split at hout
    · cases hout
    · cases hout
      rcases List.mem_cons.1 he with heq | hmem
      · subst heq
        exact ⟨rfl, pl, hpl, rfl⟩
      · exact absurd hmem (List.not_mem_nil e)

theorem mclIndentEditOk (opts : EditorOpts) (doc : List String)
    (markerLevels : List (Option String)) (pl : ParsedLine)
    (hpl : parseAt opts.tabSize doc pl.lineNumber = some pl) :
    ∀ es, indentListItem opts doc markerLevels pl = Except.ok es →
      ∀ e ∈ es, editOk opts.tabSize doc e := by
  intro es hout e he
  unfold indentListItem at hout
  split at hout
  · cases hout
  · cases hout
    rcases List.mem_cons.1 he with heq | hmem
    · subst heq
      exact ⟨rfl, pl, hpl, rfl⟩
    · exact absurd hmem (List.not_mem_nil e)

theorem mclEnterCursorEditOk (opts : EditorOpts) (doc : List String)
    (markerLevels : List (Option String)) (sel : Selection) :
    ∀ es, enterCursorEdits opts doc markerLevels sel = Except.ok es →
      ∀ e ∈ es, editOk opts.tabSize doc e := by
  intro es h e he
  unfold enterCursorEdits at h
  split at h
  · cases h
  next text hla =>
    have hget : doc.get? sel.activeLine = some text := mclLineAtSome doc _ _ hla
    split at h
    next hparse =>
      cases h
      rcases List.mem_cons.1 he with heq | hmem
      · subst heq
        exact ⟨"", rfl⟩
      · exact absurd hmem (List.not_mem_nil e)
    next pl hparse =>
      have hpa : parseAt opts.tabSize doc sel.activeLine = some pl := by
        unfold parseAt
        rw [hget, Option.some_bind, hparse]
      have hln : pl.lineNumber = sel.activeLine :=
        mclParseLineNumber opts.tabSize _ _ pl hparse
      split at h
      · split at h
        · cases h
          rcases List.mem_cons.1 he with heq | hmem
          · subst heq
            exact ⟨rfl, rfl, text, hget, rfl⟩
          · exact absurd hmem (List.not_mem_nil e)
        · exact mclOutdentEditOk opts doc markerLevels pl
            (by rw [hln]; exact hpa) es h e he
      · split at h
        · cases h
        next newPl hnew =>
          cases h
          rcases List.mem_cons.1 he with heq | hmem
          · subst heq
            exact ⟨newPl.getHead, rfl⟩
          · exact absurd hmem (List.not_mem_nil e)

theorem mclCollectEditsOk (f : Selection → Except Unit (List Edit))
    (P : Edit → Prop)
    (hf : ∀ sel es, f sel = Except.ok es → ∀ e ∈ es, P e) :
    ∀ sels es, collectEdits f sels = Except.ok es → ∀ e ∈ es, P e := by
  intro sels
  induction sels with
  | nil =>
    intro es h e he
    cases h
    exact absurd he (List.not_mem_nil e)
  | cons sel rest ih =>
    intro es h e he
    unfold collectEdits at h
    split at h
    · cases h
    next es1 hsel =>
      split at h
      · cases h
      next es2 hrest =>
        cases h
        rcases List.mem_append.1 he with hm | hm
        · exact hf sel es1 hsel e hm
        · exact ih es2 hrest e hm

theorem mclApplySelOpOk (f : ParsedLine → Except Unit (List Edit))
    (P : Edit → Prop) (Q : ParsedLine → Prop)
    (hf : ∀ pl, Q pl → ∀ es, f pl = Except.ok es → ∀ e ∈ es, P e)
    (pls : List ParsedLine) (hq : ∀ pl ∈ pls, Q pl) :
    ∀ idxs es, applySelOp f pls idxs = Except.ok es → ∀ e ∈ es, P e := by
  intro idxs
  induction idxs with
  | nil =>
    intro es h e he
    cases h
    exact absurd he (List.not_mem_nil e)
  | cons i rest ih =>
    intro es h e he
    unfold applySelOp at h
    split at h
    · cases h
    next pl hget =>
      split at h
      · cases h
      next es1 hfpl =>
        split at h
        · cases h
        next es2 hrest =>
          cases h
          rcases List.mem_append.1 he with hm | hm
          · exact hf pl (hq pl (List.get?_mem hget)) es1 hfpl e hm
          · exact ih es2 hrest e hm

theorem mclApplyAllOk (f : ParsedLine → Except Unit (List Edit))
    (P : Edit → Prop) (Q : ParsedLine → Prop)
    (hf : ∀ pl, Q pl → ∀ es, f pl = Except.ok es → ∀ e ∈ es, P e) :
    ∀ sels plss es, (∀ pls ∈ plss, ∀ pl ∈ pls, Q pl) →
      applyAll f sels plss = Except.ok es → ∀ e ∈ es, P e := by
  intro sels
  induction sels with
  | nil =>
    intro plss es _ h e he
    cases h
    exact absurd he (List.not_mem_nil e)
  | cons sel rest ih =>
    intro plss es hq h e he
    unfold applyAll at h
    split at h
    · cases h
    next pls plssRest =>
      cases hsel : applySelOp f pls (List.range (sel.endLine + 1 - sel.startLine)) with
      | error e2 => rw [hsel] at h; cases h
      | ok es1 =>
        rw [hsel] at h
        cases hrest : applyAll f rest plssRest with
        | error e2 => rw [hrest] at h; cases h
        | ok es2 =>
          rw [hrest] at h
          cases h
          rcases List.mem_append.1 he with hm | hm
          · exact mclApplySelOpOk f P Q hf pls
              (hq pls (List.mem_cons_self _ _)) _ es1 hsel e hm
          · exact ih plssRest es2
              (fun p hp => hq p (List.mem_cons_of_mem _ hp)) hrest e hm

theorem mclGateLinesInv (tabSize : Nat) (doc : List String) (startLine : Nat) :
    ∀ (idxs : List Nat) (maxLevel : Nat) (pls : List ParsedLine) (m2 : Nat),
      gateLines tabSize doc startLine idxs maxLevel = Except.ok (some (pls, m2)) →
      ∀ pl ∈ pls, parseAt tabSize doc pl.lineNumber = some pl := by
  intro idxs
  induction idxs with
  | nil =>
    intro maxLevel pls m2 h pl hpl
    cases h
    exact absurd hpl (List.not_mem_nil pl)
  | cons i rest ih =>
    intro maxLevel pls m2 h pl hpl
    unfold gateLines at h
    split at h
    · cases h
    next text hla =>
      split at h
      next hparse => cases h
      next pl2 hparse =>
        have hpa2 : parseAt tabSize doc pl2.lineNumber = some pl2 := by
          rw [mclParseLineNumber tabSize i text pl2 hparse]
          unfold parseAt
          rw [mclLineAtSome doc i text hla, Option.some_bind, hparse]
        by_cases hsl : startLine ≤ i
        · rw [if_pos hsl] at h
          cases hrec : gateLines tabSize doc startLine rest
              (if pl2.level > maxLevel then pl2.level else maxLevel) with
          | error e2 => rw [hrec] at h; cases h
          | ok o =>
            cases o with
            | none => rw [hrec] at h; cases h
            | some pr =>
              obtain ⟨pls2, m3⟩ := pr
              rw [hrec] at h
              cases h
              rcases List.mem_cons.1 hpl with heq | hmem
              · subst heq
                exact hpa2
              · exact ih _ _ _ hrec pl hmem
        · rw [if_neg hsl] at h
          exact ih _ pls m2 h pl hpl

theorem mclSelectionsGateInv (tabSize : Nat) (doc : List String) :
    ∀ (sels : List Selection) (maxLevel : Nat) (plss : List (List ParsedLine))
      (m2 : Nat),
      selectionsGate tabSize doc sels maxLevel = Except.ok (some (plss, m2)) →
      ∀ pls ∈ plss, ∀ pl ∈ pls, parseAt tabSize doc pl.lineNumber = some pl := by
  intro sels
  induction sels with
  | nil =>
    intro maxLevel plss m2 h pls hpls
    cases h
    exact absurd hpls (List.not_mem_nil pls)
  | cons sel rest ih =>
    intro maxLevel plss m2 h pls hpls
    unfold selectionsGate at h
    split at h
    · cases h
    · cases h
    next pls1 m3 hgl =>
      cases hsg : selectionsGate tabSize doc rest m3 with
      | error e2 => rw [hsg] at h; cases h
      | ok o2 =>
        cases o2 with
        | none => rw [hsg] at h; cases h
        | some pr2 =>
          obtain ⟨plss2, m4⟩ := pr2
          rw [hsg] at h
          cases h
          rcases List.mem_cons.1 hpls with heq | hmem
          · subst heq
            exact mclGateLinesInv tabSize doc sel.startLine _ _ pls m3 hgl
          · exact ih _ _ _ hsg pls hmem

/-- C9: frame property — every edit submitted by a Continue, Indent
or Outdent invocation that does not defer to a default command either
replaces exactly a line's head (the range from the line start to the
original head length of a line that parses as a list item), or
inserts a newline (with the new head), or deletes exactly the full
text range of one line; no edit reaches into a line's content
substring. -/
theorem claim9_theorem (opts : EditorOpts) (doc : List String)
    (sels : List Selection) :
    (∀ es, onEnterKey opts doc sels = Except.ok (EnterResult.edits es) →
      ∀ e ∈ es, editOk opts.tabSize doc e) ∧
    (∀ es, onOutdent opts doc sels = Except.ok (OpResult.edits es) →
      ∀ e ∈ es, editOk opts.tabSize doc e) ∧
    (∀ es, onIndent opts doc sels = Except.ok (OpResult.edits es) →
      ∀ e ∈ es, editOk opts.tabSize doc e) := by
  refine ⟨?_, ?_, ?_⟩
  · intro es h e he
    unfold onEnterKey at h
    split at h
    · cases h
    · cases h
    next maxLevel hgate =>
      split at h
      · cases h
      next es2 hce =>
        cases h
        exact mclCollectEditsOk _ _
          (fun sel2 es3 hc => mclEnterCursorEditOk opts doc _ sel2 es3 hc)
          sels _ hce e he
  · intro es h e he
    unfold onOutdent at h
    split at h
    · cases h
    · cases h
    next plss maxLevel hgate =>
      split at h
      · cases h
      next es2 happ =>
        cases h
        exact mclApplyAllOk _ _
          (fun pl => parseAt opts.tabSize doc pl.lineNumber = some pl)
          (fun pl hq es3 hout => mclOutdentEditOk opts doc _ pl hq es3 hout)
          sels plss _
          (mclSelectionsGateInv opts.tabSize doc sels 0 plss maxLevel hgate)
          happ e he
  · intro es h e he
    unfold onIndent at h
    split at h
    · cases h
    · cases h
    next plss maxLevel hgate =>
      split at h
      · cases h
      next es2 happ =>
        cases h
        exact mclApplyAllOk _ _
          (fun pl => parseAt opts.tabSize doc pl.lineNumber = some pl)
          (fun pl hq es3 hout => mclIndentEditOk opts doc _ pl hq es3 hout)
          sels plss _
          (mclSelectionsGateInv opts.tabSize doc sels 0 plss maxLevel hgate)
          happ e he

/-- C9 witness: the concrete edits emitted by Continue on a bullet
item and by Outdent and Indent on a nested item all satisfy the frame
property. -/
theorem claim9_witness :
    editOk 2 ["- a"] (Edit.insert 0 3 "\n- ") ∧
    editOk 2 ["- a", "  - b"] (Edit.replace 1 0 4 "- ") ∧
    editOk 2 ["- a", "  - b"] (Edit.replace 1 0 4 "    - ") := by
  refine ⟨?_, ?_, ?_⟩
  · exact (claim9_theorem ⟨2, true, ["-"], BlankBehaviour.outdent⟩ ["- a"]
      [⟨0, 3, 0, 3, 0, 3⟩]).1 [Edit.insert 0 3 "\n- "] rfl _
      (List.mem_singleton.2 rfl)
  · exact (claim9_theorem ⟨2, true, ["-"], BlankBehaviour.outdent⟩
      ["- a", "  - b"] [⟨1, 0, 1, 4, 1, 4⟩]).2.1 [Edit.replace 1 0 4 "- "] rfl _
      (List.mem_singleton.2 rfl)
  · exact (claim9_theorem ⟨2, true, ["-"], BlankBehaviour.outdent⟩
      ["- a", "  - b"] [⟨1, 0, 1, 4, 1, 4⟩]).2.2 [Edit.replace 1 0 4 "    - "] rfl _
      (List.mem_singleton.2 rfl)

/-- C8 counterexample: on the one-line document consisting of the
blank item "- " with blankListItemBehaviour = Remove List Item,
Continue submits a delete of the range (0,0)-(0,2) — the line's text
range, not the line itself — and applying that edit leaves a one-line
document whose single line is empty: the line does not cease to
exist, refuting the claim that the entire line is deleted outright. -/
theorem claim8_counterexample :
    onEnterKey ⟨2, true, ["-"], BlankBehaviour.removeListItem⟩ ["- "]
      [⟨0, 2, 0, 2, 0, 2⟩]
      = Except.ok (EnterResult.edits [Edit.delete 0 0 0 2]) ∧
    applyEdit ["- "] (Edit.delete 0 0 0 2) = [""] ∧
    ([""] : List String) ≠ [] ∧ ([""] : List String).length = 1 := by
  refine ⟨rfl, rfl, ?_, rfl⟩
  decide

/-- C8 (amended): for every Continue invocation on a list-item line
whose content is empty, when blankListItemBehaviour is RemoveListItem
the submitted edit deletes exactly the line's text range (from column
0 to the line length, on that same line, excluding the line break),
so the line remains in the document as an empty line rather than
being removed. -/
theorem claim8_theorem (opts : EditorOpts) (doc : List String) (sel : Selection)
    (text : String) (pl : ParsedLine)
    (hbeh : opts.blankBehaviour = BlankBehaviour.removeListItem)
    (hget : doc.get? sel.activeLine = some text)
    (hparse : parseLine opts.tabSize sel.activeLine text = some pl)
    (hrem : pl.remainder = "")
    (hws : (sDrop text sel.activeChar).data.all isJsSpace = true) :
    onEnterKey opts doc [sel]
      = Except.ok (EnterResult.edits
          [Edit.delete sel.activeLine 0 sel.activeLine text.length]) := by
  have hla : lineAt doc sel.activeLine = Except.ok text := by
    unfold lineAt
    rw [hget]
  have hgate : enterGate opts.tabSize doc [sel] 0
      = Except.ok (some (if pl.level > 0 then pl.level else 0)) := by
    simp only [enterGate, hla, hparse, hws, if_pos]
  unfold onEnterKey
  rw [hgate]
  simp only [collectEdits, enterCursorEdits, hla, hparse, hrem, hbeh,
    if_pos, List.append_nil]

/-- C8 witness: a blank item under Remove List Item at tab width 4
with tab indentation settings. -/
theorem claim8_witness :
    onEnterKey ⟨4, false, ["-"], BlankBehaviour.removeListItem⟩ ["* "]
      [⟨0, 2, 0, 2, 0, 2⟩]
      = Except.ok (EnterResult.edits [Edit.delete 0 0 0 2]) :=
  claim8_theorem ⟨4, false, ["-"], BlankBehaviour.removeListItem⟩ ["* "]
    ⟨0, 2, 0, 2, 0, 2⟩ "* "
    { lineNumber := 0
      initialSpacing := ""
      initialSpacingAsSpaces := ""
      level := 0
      marker := "*"
      markerInitialSpaces := ""
      markerIsNumber := false
      markerNumber := none
      markerDelimiter := none
      markerTrailingSpaces := " "
      remainder := "" }
    rfl rfl rfl rfl (by decide)
